import Mathlib

/-!
Verification of the log-follow / task-lifecycle polling loop and the
cluster-listing pagination helper of `ecsctl` (Go sources
`cmd/task_definitions_run.go` and `cmd/clusters_list.go`), via a shallow
embedding in Lean 4.

Conventions of the embedding:
* Go `*int64` timestamps become `Option Int` / `Int`.
* Go `map[string]bool` used as a set of event ids becomes a `List String`
  with membership (only inserted when absent, so multiplicity is irrelevant).
* The remote APIs (CloudWatch Logs, ECS) are external collaborators: their
  responses are supplied as explicit traces / server functions.
* `os.Exit` outcomes are represented by explicit outcome values; a Go panic
  (out-of-range index, nil dereference) is represented by `Option.none`.
-/

set_option maxRecDepth 16384

namespace Ecsctl

/-- A CloudWatch `FilteredLogEvent`: event id, timestamp (milliseconds,
Go `*int64`), and message payload.  (`cmd/task_definitions_run.go`, the
fields of `cloudwatchlogs.FilteredLogEvent` that the program reads.) -/
structure LogEvent where
  eventId : String
  timestamp : Int
  message : String
deriving DecidableEq

/-- The loop-local watermark state of `taskDefinitionsRunRun`:
`var lastSeenTime *int64` and `var seenEventIDs map[string]bool`
(`cmd/task_definitions_run.go` lines 139-140). -/
structure LogState where
  lastSeenTime : Option Int
  seenEventIDs : List String
deriving DecidableEq

/-- Initial state: both variables are Go zero values (`nil`). -/
def initLogState : LogState := ⟨none, []⟩

/-- `clearSeenEventIds` (line 144): `seenEventIDs = make(map[string]bool, 0)`. -/
def clearSeenEventIds (s : LogState) : LogState :=
  { s with seenEventIDs := [] }

/-- `addSeenEventIDs` (line 148): `seenEventIDs[*id] = true`. -/
def addSeenEventIDs (s : LogState) (i : String) : LogState :=
  { s with seenEventIDs := i :: s.seenEventIDs }

/-- `updateLastSeenTime` (line 152): if `lastSeenTime == nil || *ts > *lastSeenTime`
then replace the watermark and clear the seen set. -/
def updateLastSeenTime (s : LogState) (ts : Int) : LogState :=
  match s.lastSeenTime with
  | none => clearSeenEventIds { s with lastSeenTime := some ts }
  | some l =>
      if ts > l then clearSeenEventIds { s with lastSeenTime := some ts }
      else s

/-- The body of the `for _, event := range page.Events` loop inside
`handlePage` (lines 165-171): update the watermark, then render the event
unless its id is already in the seen set.  The returned `Bool` is `true`
exactly when the event was rendered via `printEvent`. -/
def processEvent (s : LogState) (e : LogEvent) : LogState × Bool :=
  let s1 := updateLastSeenTime s e.timestamp
  if e.eventId ∈ s1.seenEventIDs then (s1, false)
  else (addSeenEventIDs s1 e.eventId, true)

/-- Processing a list of events in order (the events of one page, or the
concatenation across pages/iterations: `handlePage` always returns
`!lastPage`, so every page is processed and events are consumed strictly
in delivery order).  Also returns the sublist of rendered events. -/
def processEvents (s : LogState) : List LogEvent → LogState × List LogEvent
  | [] => (s, [])
  | e :: es =>
      let p := processEvent s e
      let rest := processEvents p.1 es
      (rest.1, if p.2 then e :: rest.2 else rest.2)

/-- Folding the state across a list of deliveries (pages or loop
iterations), ignoring the rendered output. -/
def processSegments (s : LogState) (segs : List (List LogEvent)) : LogState :=
  segs.foldl (fun st es => (processEvents st es).1) s

/-- One step of the watermark computation: `nil` is replaced, otherwise
the maximum is kept. -/
def wmStep (w : Option Int) (t : Int) : Int :=
  match w with
  | none => t
  | some l => max l t

theorem processEvent_lastSeenTime (s : LogState) (e : LogEvent) :
    (processEvent s e).1.lastSeenTime = some (wmStep s.lastSeenTime e.timestamp) := by
  unfold processEvent updateLastSeenTime wmStep clearSeenEventIds addSeenEventIDs
  rcases s with ⟨w, ids⟩
  cases w with
  | none => simp only []; split <;> rfl
  | some l =>
      simp only []
      by_cases h : e.timestamp > l
      · simp only [if_pos h]
        have : max l e.timestamp = e.timestamp := max_eq_right (le_of_lt h)
        split <;> simp [this]
      · simp only [if_neg h]
        have : max l e.timestamp = l := max_eq_left (le_of_not_lt h)
        split <;> simp [this]

theorem processEvent_advance (s : LogState) (e : LogEvent)
    (h : ∀ l, s.lastSeenTime = some l → l < e.timestamp) :
    processEvent s e = (⟨some e.timestamp, [e.eventId]⟩, true) := by
  unfold processEvent updateLastSeenTime clearSeenEventIds addSeenEventIDs
  rcases s with ⟨w, ids⟩
  cases w with
  | none => simp
  | some l =>
      have hl := h l rfl
      simp [hl]

theorem processEvent_stay (s : LogState) (e : LogEvent) (l : Int)
    (hl : s.lastSeenTime = some l) (hle : e.timestamp ≤ l) :
    processEvent s e =
      (if e.eventId ∈ s.seenEventIDs then (s, false)
       else (⟨some l, e.eventId :: s.seenEventIDs⟩, true)) := by
  rcases s with ⟨w, ids⟩
  simp only [LogState.lastSeenTime] at hl
  subst hl
  unfold processEvent updateLastSeenTime clearSeenEventIds addSeenEventIDs
  have hng : ¬ e.timestamp > l := not_lt.mpr hle
  simp [hng]

theorem processEvents_nil (s : LogState) : processEvents s [] = (s, []) := rfl

theorem processEvents_cons (s : LogState) (e : LogEvent) (es : List LogEvent) :
    processEvents s (e :: es) =
      ((processEvents (processEvent s e).1 es).1,
        if (processEvent s e).2 then e :: (processEvents (processEvent s e).1 es).2
        else (processEvents (processEvent s e).1 es).2) := rfl

theorem processEvents_state_append (s : LogState) (a b : List LogEvent) :
    (processEvents s (a ++ b)).1 = (processEvents (processEvents s a).1 b).1 := by
  induction a generalizing s with
  | nil => rfl
  | cons e es ih =>
      simp only [List.cons_append, processEvents_cons]
      exact ih (processEvent s e).1

theorem processSegments_eq_join (s : LogState) (segs : List (List LogEvent)) :
    processSegments s segs = (processEvents s segs.flatten).1 := by
  induction segs generalizing s with
  | nil => rfl
  | cons es rest ih =>
      simp only [processSegments, List.foldl_cons, List.flatten_cons,
        processEvents_state_append]
      exact ih (processEvents s es).1

theorem processEvents_lastSeenTime (s : LogState) (es : List LogEvent) :
    (processEvents s es).1.lastSeenTime =
      es.foldl (fun w e => some (wmStep w e.timestamp)) s.lastSeenTime := by
  induction es generalizing s with
  | nil => rfl
  | cons e es ih =>
      simp only [processEvents_cons, List.foldl_cons]
      rw [ih (processEvent s e).1, processEvent_lastSeenTime]

/-- Invariant carrier for the seen-id set: after processing a
timestamp-sorted batch `es` from a state whose watermark does not exceed
any timestamp in `es`, every id in the resulting seen set either belongs
to an event of `es` whose timestamp equals the resulting watermark, or
was already in the starting seen set with the watermark unchanged. -/
theorem processEvents_seen_inv (es : List LogEvent) :
    ∀ (s : LogState),
      (∀ e ∈ es, ∀ l, s.lastSeenTime = some l → l ≤ e.timestamp) →
      es.Pairwise (fun a b => a.timestamp ≤ b.timestamp) →
      ∀ i ∈ (processEvents s es).1.seenEventIDs,
        (∃ e, e ∈ es ∧ e.eventId = i ∧
            some e.timestamp = (processEvents s es).1.lastSeenTime)
        ∨ (i ∈ s.seenEventIDs ∧
            (processEvents s es).1.lastSeenTime = s.lastSeenTime) := by
  induction es with
  | nil =>
      intro s _ _ i hi
      exact Or.inr ⟨hi, rfl⟩
  | cons e es ih =>
      intro s hle hpw i hi
      obtain ⟨hhead, htail⟩ := List.pairwise_cons.mp hpw
      have hstep :
          (processEvents s (e :: es)).1 = (processEvents (processEvent s e).1 es).1 := rfl
      rw [hstep] at hi ⊢
      rcases hw : s.lastSeenTime with _ | l
      · -- no watermark yet: the event advances it and the set becomes [e.eventId]
        have hadv : processEvent s e = (⟨some e.timestamp, [e.eventId]⟩, true) :=
          processEvent_advance s e (by intro l hl; rw [hw] at hl; cases hl)
        rw [hadv] at hi ⊢
        have hle1 : ∀ e2 ∈ es, ∀ l2,
            (⟨some e.timestamp, [e.eventId]⟩ : LogState).lastSeenTime = some l2 →
            l2 ≤ e2.timestamp := by
          intro e2 he2 l2 hl2
          injection hl2 with h2
          rw [← h2]
          exact hhead e2 he2
        rcases ih ⟨some e.timestamp, [e.eventId]⟩ hle1 htail i hi with h | h
        · obtain ⟨e2, hm, hid, hwm⟩ := h
          exact Or.inl ⟨e2, List.mem_cons_of_mem e hm, hid, hwm⟩
        · have hieq : i = e.eventId := by simpa using h.1
          exact Or.inl ⟨e, List.mem_cons_self e es, hieq.symm, by rw [h.2]⟩
      · have hl : l ≤ e.timestamp := hle e (List.mem_cons_self e es) l hw
        rcases lt_or_eq_of_le hl with hlt | heq
        · -- strictly newer event: watermark advances, set cleared then [e.eventId]
          have hadv : processEvent s e = (⟨some e.timestamp, [e.eventId]⟩, true) :=
            processEvent_advance s e
              (by intro l2 hl2; rw [hw] at hl2; injection hl2 with h2; rw [← h2]; exact hlt)
          rw [hadv] at hi ⊢
          have hle1 : ∀ e2 ∈ es, ∀ l2,
              (⟨some e.timestamp, [e.eventId]⟩ : LogState).lastSeenTime = some l2 →
              l2 ≤ e2.timestamp := by
            intro e2 he2 l2 hl2
            injection hl2 with h2
            rw [← h2]
            exact hhead e2 he2
          rcases ih ⟨some e.timestamp, [e.eventId]⟩ hle1 htail i hi with h | h
          · obtain ⟨e2, hm, hid, hwm⟩ := h
            exact Or.inl ⟨e2, List.mem_cons_of_mem e hm, hid, hwm⟩
          · have hieq : i = e.eventId := by simpa using h.1
            exact Or.inl ⟨e, List.mem_cons_self e es, hieq.symm, by rw [h.2]⟩
        · -- event at the current watermark: watermark unchanged
          have hstay := processEvent_stay s e l hw heq.ge
          by_cases hmem : e.eventId ∈ s.seenEventIDs
          · rw [hstay, if_pos hmem] at hi ⊢
            have hle1 : ∀ e2 ∈ es, ∀ l2, s.lastSeenTime = some l2 → l2 ≤ e2.timestamp := by
              intro e2 he2 l2 hl2
              rw [hw] at hl2
              injection hl2 with h2
              rw [← h2, heq]
              exact hhead e2 he2
            rcases ih s hle1 htail i hi with h | h
            · obtain ⟨e2, hm, hid, hwm⟩ := h
              exact Or.inl ⟨e2, List.mem_cons_of_mem e hm, hid, hwm⟩
            · exact Or.inr ⟨h.1, h.2.trans hw⟩
          · rw [hstay, if_neg hmem] at hi ⊢
            have hle1 : ∀ e2 ∈ es, ∀ l2,
                (⟨some l, e.eventId :: s.seenEventIDs⟩ : LogState).lastSeenTime = some l2 →
                l2 ≤ e2.timestamp := by
              intro e2 he2 l2 hl2
              injection hl2 with h2
              rw [← h2, heq]
              exact hhead e2 he2
            rcases ih ⟨some l, e.eventId :: s.seenEventIDs⟩ hle1 htail i hi with h | h
            · obtain ⟨e2, hm, hid, hwm⟩ := h
              exact Or.inl ⟨e2, List.mem_cons_of_mem e hm, hid, hwm⟩
            · rcases List.mem_cons.mp h.1 with hieq | hiold
              · refine Or.inl ⟨e, List.mem_cons_self e es, hieq.symm, ?_⟩
                rw [h.2]
                simp [heq]
              · refine Or.inr ⟨hiold, ?_⟩
                rw [h.2]

/-- C2: events with timestamps `t1 ≤ t2 ≤ t3` delivered across any
partition into pages/iterations leave the watermark at `max t1 (max t2 t3)`;
and an event whose id is already recorded in the seen set, re-delivered at
the current watermark timestamp, is not rendered again
(`handlePage`, `cmd/task_definitions_run.go` lines 152-173). -/
theorem watermark_monotone_dedup (e1 e2 e3 : LogEvent)
    (h12 : e1.timestamp ≤ e2.timestamp) (h23 : e2.timestamp ≤ e3.timestamp)
    (segs : List (List LogEvent)) (hsegs : segs.flatten = [e1, e2, e3]) :
    (processSegments initLogState segs).lastSeenTime =
      some (max e1.timestamp (max e2.timestamp e3.timestamp))
    ∧ ∀ (s : LogState) (e : LogEvent), s.lastSeenTime = some e.timestamp →
        e.eventId ∈ s.seenEventIDs → (processEvent s e).2 = false := by
  constructor
  · rw [processSegments_eq_join, hsegs, processEvents_lastSeenTime]
    simp only [List.foldl_cons, List.foldl_nil, initLogState, wmStep]
    rw [max_assoc]
  · intro s e hwm hmem
    rw [processEvent_stay s e e.timestamp hwm le_rfl, if_pos hmem]

/-- C2 witness: three concrete events split over two pages. -/
theorem watermark_monotone_dedup_witness :
    (processSegments initLogState
        [[⟨"a", 1, "x"⟩], [⟨"b", 2, "y"⟩, ⟨"c", 3, "z"⟩]]).lastSeenTime =
      some (max 1 (max 2 3))
    ∧ (processEvent ⟨some 3, ["c"]⟩ ⟨"c", 3, "z"⟩).2 = false :=
  ⟨(watermark_monotone_dedup ⟨"a", 1, "x"⟩ ⟨"b", 2, "y"⟩ ⟨"c", 3, "z"⟩
      (by decide) (by decide) [[⟨"a", 1, "x"⟩], [⟨"b", 2, "y"⟩, ⟨"c", 3, "z"⟩]] rfl).1,
    (watermark_monotone_dedup ⟨"a", 1, "x"⟩ ⟨"b", 2, "y"⟩ ⟨"c", 3, "z"⟩
      (by decide) (by decide) [[⟨"a", 1, "x"⟩], [⟨"b", 2, "y"⟩, ⟨"c", 3, "z"⟩]] rfl).2
      ⟨some 3, ["c"]⟩ ⟨"c", 3, "z"⟩ rfl (by decide)⟩

/-- C3: an event strictly later than the current watermark empties the
seen-id set (leaving exactly the new event's id), so a previously recorded
id no longer suppresses a later event carrying the same id value
(`updateLastSeenTime` / `clearSeenEventIds`, lines 144-157). -/
theorem watermark_advance_clears (s : LogState) (w : Int) (e : LogEvent)
    (hw : s.lastSeenTime = some w) (hlt : w < e.timestamp) :
    (processEvent s e).1.seenEventIDs = [e.eventId]
    ∧ ∀ e2 : LogEvent, e2.eventId ≠ e.eventId →
        (processEvent (processEvent s e).1 e2).2 = true := by
  have hadv : processEvent s e = (⟨some e.timestamp, [e.eventId]⟩, true) :=
    processEvent_advance s e
      (by intro l hl; rw [hw] at hl; injection hl with h2; rw [← h2]; exact hlt)
  constructor
  · rw [hadv]
  · intro e2 hne
    rw [hadv]
    by_cases hcmp : e.timestamp < e2.timestamp
    · rw [processEvent_advance _ e2 (by intro l hl; injection hl with h2; rw [← h2]; exact hcmp)]
    · rw [processEvent_stay _ e2 e.timestamp rfl (not_lt.mp hcmp)]
      simp [hne]

/-- C3 witness: the id "old" recorded at watermark 5 is forgotten once an
event at timestamp 6 arrives, and a subsequent event with id "old" renders. -/
theorem watermark_advance_clears_witness :
    (processEvent ⟨some 5, ["old"]⟩ ⟨"new", 6, "m"⟩).1.seenEventIDs = ["new"]
    ∧ (processEvent (processEvent ⟨some 5, ["old"]⟩ ⟨"new", 6, "m"⟩).1 ⟨"old", 6, "n"⟩).2 = true :=
  ⟨(watermark_advance_clears ⟨some 5, ["old"]⟩ 5 ⟨"new", 6, "m"⟩ rfl (by decide)).1,
    (watermark_advance_clears ⟨some 5, ["old"]⟩ 5 ⟨"new", 6, "m"⟩ rfl (by decide)).2
      ⟨"old", 6, "n"⟩ (by decide)⟩

/-- C4 (amended): provided the log events are delivered in non-decreasing
timestamp order, every id in the seen set is the id of a delivered event
whose timestamp equals the current watermark.  (The state at any point of
the follow loop is `processEvents` over the prefix delivered so far, and a
prefix of a sorted delivery is sorted.) -/
theorem seen_ids_at_watermark (es : List LogEvent)
    (hsorted : es.Pairwise (fun a b => a.timestamp ≤ b.timestamp)) :
    ∀ i ∈ (processEvents initLogState es).1.seenEventIDs,
      ∃ e, e ∈ es ∧ e.eventId = i ∧
        some e.timestamp = (processEvents initLogState es).1.lastSeenTime := by
  intro i hi
  rcases processEvents_seen_inv es initLogState
      (by intro e _ l hl; simp [initLogState] at hl) hsorted i hi with h | h
  · exact h
  · exact absurd h.1 (List.not_mem_nil i)

/-- C4 witness: a concrete sorted delivery. -/
theorem seen_ids_at_watermark_witness :
    ∃ e, e ∈ ([⟨"a", 1, "m"⟩, ⟨"b", 2, "n"⟩] : List LogEvent) ∧ e.eventId = "b" ∧
      some e.timestamp =
        (processEvents initLogState [⟨"a", 1, "m"⟩, ⟨"b", 2, "n"⟩]).1.lastSeenTime :=
  seen_ids_at_watermark [⟨"a", 1, "m"⟩, ⟨"b", 2, "n"⟩]
    (by simp [List.pairwise_cons]) "b" (by decide)

/-- C4 counterexample: with out-of-order delivery the claim as stated is
false: after events ("a", t=100) then ("b", t=50), the seen set contains
"b", whose only delivery had timestamp 50, while the watermark is 100. -/
theorem seen_ids_at_watermark_counterexample :
    ("b" ∈ (processEvents initLogState
        [⟨"a", 100, "m"⟩, ⟨"b", 50, "n"⟩]).1.seenEventIDs)
    ∧ (processEvents initLogState
        [⟨"a", 100, "m"⟩, ⟨"b", 50, "n"⟩]).1.lastSeenTime = some 100
    ∧ (∀ e ∈ ([⟨"a", 100, "m"⟩, ⟨"b", 50, "n"⟩] : List LogEvent),
        e.eventId = "b" → e.timestamp = 50)
    ∧ (50 : Int) ≠ 100 := by
  decide

/-! ### The poll loop of `taskDefinitionsRunRun` (lines 175-208)

Each iteration of the `for {}` loop issues one `FilterLogEventsPages`
query and one `DescribeTasks` query.  The remote responses are supplied
as a trace, one `IterationInput` per iteration. -/

/-- Outcome of one `FilterLogEventsPages` call: either the pages it
delivered to `handlePage`, or an error. -/
inductive LogQueryResult where
  | ok (pages : List (List LogEvent))
  | err (msg : String)
deriving DecidableEq

/-- Outcome of one `DescribeTasks` call: the task's `LastStatus`
(`aws.StringValue(tasksStatus.Tasks[0].LastStatus)`), or an error. -/
inductive StatusQueryResult where
  | ok (status : String)
  | err (msg : String)
deriving DecidableEq

/-- The remote responses consumed by one loop iteration. -/
structure IterationInput where
  logResult : LogQueryResult
  statusResult : StatusQueryResult
deriving DecidableEq

/-- Loop-local mutable state: `retryCount` (line 175), the watermark
state, and the events rendered so far. -/
structure PollState where
  retryCount : Nat
  logState : LogState
  printed : List LogEvent
deriving DecidableEq

def initPollState : PollState := ⟨0, initLogState, []⟩

/-- `retryLimit := 50` (line 176). -/
def retryLimit : Nat := 50

/-- How the loop exits: `os.Exit(1)` after the log-retry ceiling
(lines 182-185), `os.Exit(1)` on a `DescribeTasks` error (lines 197-200),
or `os.Exit(0)` on status `"STOPPED"` (lines 203-205). -/
inductive PollOutcome where
  | fatalLog (msg : String)
  | fatalStatus (msg : String)
  | stopped
deriving DecidableEq

/-- The status-check half of an iteration (lines 192-205). -/
def statusStep (s : PollState) : StatusQueryResult → Except PollOutcome PollState
  | .err m => .error (.fatalStatus m)
  | .ok st => if st = "STOPPED" then .error .stopped else .ok s

/-- One full iteration (lines 177-207): the log query first — an error
increments `retryCount` and is fatal once the counter reaches
`retryLimit`, otherwise the iteration falls through to the status check;
a successful query processes every page's events in order. -/
def pollIter (s : PollState) (it : IterationInput) : Except PollOutcome PollState :=
  match it.logResult with
  | .err m =>
      if s.retryCount + 1 ≥ retryLimit then .error (.fatalLog m)
      else statusStep { s with retryCount := s.retryCount + 1 } it.statusResult
  | .ok pages =>
      let p := processEvents s.logState pages.flatten
      statusStep { s with logState := p.1, printed := s.printed ++ p.2 } it.statusResult

/-- The unbounded `for {}` loop, run over a finite trace of remote
responses; `.ok` means the trace was exhausted with the loop still
running. -/
def pollLoop (s : PollState) : List IterationInput → Except PollOutcome PollState
  | [] => .ok s
  | it :: its =>
      match pollIter s it with
      | .error o => .error o
      | .ok s1 => pollLoop s1 its

/-- Number of failed log queries in a trace. -/
def countLogFailures (t : List IterationInput) : Nat :=
  t.countP (fun it => match it.logResult with | .err _ => true | .ok _ => false)

/-- Length of the longest run of consecutive failed log queries. -/
def consecFailsAux : List IterationInput → Nat → Nat → Nat
  | [], cur, best => max cur best
  | it :: its, cur, best =>
      match it.logResult with
      | .err _ => consecFailsAux its (cur + 1) (max (cur + 1) best)
      | .ok _ => consecFailsAux its 0 best

def maxConsecutiveLogFailures (t : List IterationInput) : Nat :=
  consecFailsAux t 0 0

theorem countLogFailures_cons_err (m : String) (st : StatusQueryResult)
    (t : List IterationInput) :
    countLogFailures (⟨.err m, st⟩ :: t) = countLogFailures t + 1 := by
  simp [countLogFailures]

theorem countLogFailures_cons_ok (pages : List (List LogEvent))
    (st : StatusQueryResult) (t : List IterationInput) :
    countLogFailures (⟨.ok pages, st⟩ :: t) = countLogFailures t := by
  simp [countLogFailures]

/-- If fewer than `retryLimit` log failures occur in the whole trace, the
loop never takes the fatal-log exit (whatever the interleaving). -/
theorem pollLoop_no_fatalLog (t : List IterationInput) :
    ∀ (s : PollState), s.retryCount + countLogFailures t < retryLimit →
      ∀ m, pollLoop s t ≠ .error (.fatalLog m) := by
  induction t with
  | nil =>
      intro s _ m
      simp [pollLoop]
  | cons it its ih =>
      intro s hcnt m
      rcases it with ⟨lr, sr⟩
      cases lr with
      | err me =>
          rw [countLogFailures_cons_err] at hcnt
          have hlt : s.retryCount + 1 < retryLimit := by omega
          simp only [pollLoop, pollIter, if_neg (not_le.mpr hlt)]
          cases sr with
          | err ms => simp [statusStep]
          | ok st =>
              by_cases hst : st = "STOPPED"
              · simp [statusStep, hst]
              · simp only [statusStep, if_neg hst]
                refine ih _ ?_ m
                show s.retryCount + 1 + countLogFailures its < retryLimit
                omega
      | ok pages =>
          rw [countLogFailures_cons_ok] at hcnt
          simp only [pollLoop, pollIter]
          cases sr with
          | err ms => simp [statusStep]
          | ok st =>
              by_cases hst : st = "STOPPED"
              · simp [statusStep, hst]
              · simp only [statusStep, if_neg hst]
                refine ih _ ?_ m
                show s.retryCount + countLogFailures its < retryLimit
                omega

/-- If every status response is a non-`"STOPPED"` success and the trace
accumulates enough log failures to reach the ceiling, the loop takes the
fatal-log exit. -/
theorem pollLoop_fatalLog_of_failures (t : List IterationInput) :
    ∀ (s : PollState),
      (∀ it ∈ t, ∃ st, it.statusResult = .ok st ∧ st ≠ "STOPPED") →
      s.retryCount < retryLimit →
      retryLimit ≤ s.retryCount + countLogFailures t →
      ∃ m, pollLoop s t = .error (.fatalLog m) := by
  induction t with
  | nil =>
      intro s _ hlt hge
      simp [countLogFailures] at hge
      omega
  | cons it its ih =>
      intro s hok hlt hge
      rcases it with ⟨lr, sr⟩
      obtain ⟨st, hst, hstop⟩ := hok ⟨lr, sr⟩ (List.mem_cons_self _ _)
      simp only at hst
      subst hst
      cases lr with
      | err me =>
          rw [countLogFailures_cons_err] at hge
          by_cases hceil : s.retryCount + 1 ≥ retryLimit
          · exact ⟨me, by simp [pollLoop, pollIter, if_pos hceil]⟩
          · simp only [pollLoop, pollIter, if_neg hceil, statusStep, if_neg hstop]
            refine ih _ ?_ ?_ ?_
            · intro it2 h2
              exact hok it2 (List.mem_cons_of_mem _ h2)
            · simpa using not_le.mp hceil
            · simp
              omega
      | ok pages =>
          rw [countLogFailures_cons_ok] at hge
          simp only [pollLoop, pollIter, statusStep, if_neg hstop]
          refine ih _ ?_ hlt (by simpa using hge)
          intro it2 h2
          exact hok it2 (List.mem_cons_of_mem _ h2)

/-- C1 counterexample: the retry counter is cumulative, so the fatal exit
is NOT characterized by 50 *consecutive* failures: 49 failures, then one
successful query, then one more failure exit fatally although the longest
consecutive failure run is 49. -/
theorem logRetry_consecutive_counterexample :
    pollLoop initPollState
        (List.replicate 49 ⟨.err "e", .ok "RUNNING"⟩ ++
          [⟨.ok [], .ok "RUNNING"⟩, ⟨.err "e", .ok "RUNNING"⟩]) =
      .error (.fatalLog "e")
    ∧ maxConsecutiveLogFailures
        (List.replicate 49 ⟨.err "e", .ok "RUNNING"⟩ ++
          [⟨.ok [], .ok "RUNNING"⟩, ⟨.err "e", .ok "RUNNING"⟩]) = 49
    ∧ 49 < retryLimit :=
  ⟨rfl, rfl, by decide⟩

/-- C1 (amended): the fatal exit due to log-query errors happens exactly
when the cumulative count of failed log queries reaches `retryLimit = 50`
(the counter is never reset by a success); in particular a trace with
fewer than 50 failures in total — such as 49 consecutive failures followed
by one success — never takes the fatal-log exit
(`taskDefinitionsRunRun`, `cmd/task_definitions_run.go` lines 175-186). -/
theorem logRetry_ceiling (t : List IterationInput) :
    (countLogFailures t < retryLimit →
      ∀ m, pollLoop initPollState t ≠ .error (.fatalLog m))
    ∧ ((∀ it ∈ t, ∃ st, it.statusResult = .ok st ∧ st ≠ "STOPPED") →
        retryLimit ≤ countLogFailures t →
        ∃ m, pollLoop initPollState t = .error (.fatalLog m)) := by
  constructor
  · intro h m
    exact pollLoop_no_fatalLog t initPollState (by simpa [initPollState] using h) m
  · intro hok hge
    exact pollLoop_fatalLog_of_failures t initPollState hok (by decide)
      (by simpa [initPollState] using hge)

/-- C1 witness: 49 consecutive failures followed by one success do not
exit; 50 straight failures do. -/
theorem logRetry_ceiling_witness :
    pollLoop initPollState
        (List.replicate 49 ⟨.err "e", .ok "RUNNING"⟩ ++ [⟨.ok [], .ok "RUNNING"⟩]) ≠
      .error (.fatalLog "e")
    ∧ ∃ m, pollLoop initPollState
        (List.replicate 50 ⟨.err "e", .ok "RUNNING"⟩) = .error (.fatalLog m) :=
  ⟨(logRetry_ceiling _).1 (by decide) "e",
    (logRetry_ceiling _).2
      (by
        intro it hit
        have h := List.eq_of_mem_replicate hit
        subst h
        exact ⟨"RUNNING", rfl, by decide⟩)
      (by decide)⟩

/-- C7: a `DescribeTasks` error is fatal on its very first occurrence,
with no retry tolerance — both after a successful log query and after a
tolerated log-query failure (`cmd/task_definitions_run.go` lines 192-200). -/
theorem statusError_fatal :
    (∀ (s : PollState) (pages : List (List LogEvent)) (m : String)
        (rest : List IterationInput),
        pollLoop s (⟨.ok pages, .err m⟩ :: rest) = .error (.fatalStatus m))
    ∧ ∀ (s : PollState) (e m : String) (rest : List IterationInput),
        s.retryCount + 1 < retryLimit →
        pollLoop s (⟨.err e, .err m⟩ :: rest) = .error (.fatalStatus m) := by
  constructor
  · intro s pages m rest
    simp [pollLoop, pollIter, statusStep]
  · intro s e m rest h
    simp [pollLoop, pollIter, statusStep, not_le.mpr h]

/-- C7 witness: the first status error aborts the loop at once. -/
theorem statusError_fatal_witness :
    pollLoop initPollState [⟨.ok [], .err "boom"⟩] = .error (.fatalStatus "boom")
    ∧ pollLoop initPollState [⟨.err "e", .err "boom"⟩] = .error (.fatalStatus "boom") :=
  ⟨statusError_fatal.1 initPollState [] "boom" [],
    statusError_fatal.2 initPollState "e" "boom" [] (by decide)⟩

/-- C9: the log-retry counter is cumulative over the lifetime of the
loop — a successful query leaves `retryCount` unchanged — so 50 failures
in total, arbitrarily interleaved with successes, exit fatally
(`cmd/task_definitions_run.go` lines 175-186: `retryCount` is incremented
on error and never reset). -/
theorem logRetry_cumulative :
    (∀ (s : PollState) (pages : List (List LogEvent)) (st : String),
        st ≠ "STOPPED" →
        ∃ s1, pollIter s ⟨.ok pages, .ok st⟩ = .ok s1 ∧ s1.retryCount = s.retryCount)
    ∧ ∀ (t : List IterationInput),
        (∀ it ∈ t, ∃ st, it.statusResult = .ok st ∧ st ≠ "STOPPED") →
        retryLimit ≤ countLogFailures t →
        ∃ m, pollLoop initPollState t = .error (.fatalLog m) := by
  constructor
  · intro s pages st hst
    exact ⟨{ s with
              logState := (processEvents s.logState pages.flatten).1,
              printed := s.printed ++ (processEvents s.logState pages.flatten).2 },
      by simp [pollIter, statusStep, hst], rfl⟩
  · intro t hok hge
    exact pollLoop_fatalLog_of_failures t initPollState hok (by decide)
      (by simpa [initPollState] using hge)

/-- C9 witness: a successful query at `retryCount = 49` keeps the counter
at 49, and a trace of 50 failures interleaved with a success exits
fatally. -/
theorem logRetry_cumulative_witness :
    (∃ s1, pollIter ⟨49, initLogState, []⟩ ⟨.ok [], .ok "RUNNING"⟩ = .ok s1
      ∧ s1.retryCount = 49)
    ∧ ∃ m, pollLoop initPollState
        (List.replicate 49 ⟨.err "e", .ok "RUNNING"⟩ ++
          [⟨.ok [], .ok "RUNNING"⟩, ⟨.err "e", .ok "RUNNING"⟩]) =
        .error (.fatalLog m) :=
  ⟨logRetry_cumulative.1 ⟨49, initLogState, []⟩ [] "RUNNING" (by decide),
    logRetry_cumulative.2
      (List.replicate 49 ⟨.err "e", .ok "RUNNING"⟩ ++
        [⟨.ok [], .ok "RUNNING"⟩, ⟨.err "e", .ok "RUNNING"⟩])
      (by
        have hall : ∀ it ∈ (List.replicate 49
              (⟨.err "e", .ok "RUNNING"⟩ : IterationInput) ++
              [⟨.ok [], .ok "RUNNING"⟩, ⟨.err "e", .ok "RUNNING"⟩]),
            it.statusResult = StatusQueryResult.ok "RUNNING" := by decide
        intro it hit
        exact ⟨"RUNNING", hall it hit, by decide⟩)
      (by decide)⟩

/-! ### `clustersListRun` (`cmd/clusters_list.go` lines 12-38) -/

/-- One `ListClusters` response: the cluster ARNs of the page and the
optional continuation token. -/
structure ListClustersPage where
  clusterArns : List String
  nextToken : Option String
deriving DecidableEq

/-- The `for {}` loop of `clustersListRun`, over a server function from
request token (`none` on the first request, since `input.NextToken` is
only set when a token was received) to response.  Returns the printed
lines and the exit code; `none` means the given iteration budget was
exhausted with the loop still running (the Go loop is unbounded). -/
def clustersListRun (server : Option String → Except String ListClustersPage) :
    Nat → Option String → Option (List String × Nat)
  | 0, _ => none
  | fuel + 1, tok =>
      match server tok with
      | .error e => some ([e], 1)
      | .ok page =>
          match page.nextToken with
          | none => some (page.clusterArns, 0)
          | some t =>
              match clustersListRun server fuel (some t) with
              | none => none
              | some (out, code) => some (page.clusterArns ++ out, code)

/-- The server delivers this exact chain of pages when the loop starts at
`tok`: each page's continuation token is passed as the next request's
token, and the last page of the chain carries no token. -/
inductive Serves (server : Option String → Except String ListClustersPage) :
    Option String → List ListClustersPage → Prop
  | last {tok arns} : server tok = .ok ⟨arns, none⟩ →
      Serves server tok [⟨arns, none⟩]
  | step {tok arns t ps} : server tok = .ok ⟨arns, some t⟩ →
      Serves server (some t) ps →
      Serves server tok (⟨arns, some t⟩ :: ps)

/-- The server delivers this chain of token-carrying pages when the loop
starts at `tok`, and then an error. -/
inductive ServesErr (server : Option String → Except String ListClustersPage) :
    Option String → List ListClustersPage → String → Prop
  | here {tok e} : server tok = .error e → ServesErr server tok [] e
  | step {tok arns t ps e} : server tok = .ok ⟨arns, some t⟩ →
      ServesErr server (some t) ps e →
      ServesErr server tok (⟨arns, some t⟩ :: ps) e

theorem clustersListRun_succ (server : Option String → Except String ListClustersPage)
    (fuel : Nat) (tok : Option String) :
    clustersListRun server (fuel + 1) tok =
      match server tok with
      | .error e => some ([e], 1)
      | .ok page =>
          match page.nextToken with
          | none => some (page.clusterArns, 0)
          | some t =>
              match clustersListRun server fuel (some t) with
              | none => none
              | some (out, code) => some (page.clusterArns ++ out, code) := rfl

theorem clustersListRun_serves {server : Option String → Except String ListClustersPage}
    {tok : Option String} {ps : List ListClustersPage} (h : Serves server tok ps) :
    clustersListRun server ps.length tok =
      some ((ps.map ListClustersPage.clusterArns).flatten, 0) := by
  induction h with
  | last hsrv =>
      simp [clustersListRun, hsrv]
  | step hsrv _ ih =>
      simp [clustersListRun, hsrv, ih]

theorem clustersListRun_servesErr {server : Option String → Except String ListClustersPage}
    {tok : Option String} {ps : List ListClustersPage} {e : String}
    (h : ServesErr server tok ps e) :
    clustersListRun server (ps.length + 1) tok =
      some ((ps.map ListClustersPage.clusterArns).flatten ++ [e], 1) := by
  induction h with
  | here hsrv =>
      simp [clustersListRun, hsrv]
  | step hsrv _ ih =>
      rw [List.length_cons, clustersListRun_succ, hsrv]
      dsimp only
      rw [ih]
      simp

theorem clustersListRun_noToken_noStop
    {server : Option String → Except String ListClustersPage}
    (h : ∀ tok, ∃ arns t, server tok = .ok ⟨arns, some t⟩) :
    ∀ (fuel : Nat) (tok : Option String), clustersListRun server fuel tok = none := by
  intro fuel
  induction fuel with
  | zero => intro tok; rfl
  | succ n ih =>
      intro tok
      obtain ⟨arns, t, hsrv⟩ := h tok
      simp [clustersListRun, hsrv, ih (some t)]

/-- C8: the pagination helper prints exactly the concatenation of all
pages' cluster ARNs in page order, passing each response's continuation
token into the next request; it terminates precisely when a response
carries no token (with exit code 0), never terminating if every response
carries one; and a request error aborts at once with the error printed
and exit code 1 (`clustersListRun`, `cmd/clusters_list.go` lines 12-38). -/
theorem clustersList_pagination (server : Option String → Except String ListClustersPage) :
    (∀ ps, Serves server none ps →
        clustersListRun server ps.length none =
          some ((ps.map ListClustersPage.clusterArns).flatten, 0))
    ∧ (∀ ps e, ServesErr server none ps e →
        clustersListRun server (ps.length + 1) none =
          some ((ps.map ListClustersPage.clusterArns).flatten ++ [e], 1))
    ∧ ((∀ tok, ∃ arns t, server tok = .ok ⟨arns, some t⟩) →
        ∀ fuel, clustersListRun server fuel none = none) :=
  ⟨fun _ h => clustersListRun_serves h,
    fun _ _ h => clustersListRun_servesErr h,
    fun h fuel => clustersListRun_noToken_noStop h fuel none⟩

/-- C8 witness: a two-page chain prints the ARNs of both pages in order
and exits 0; an error on the second request prints the first page then
the error and exits 1. -/
theorem clustersList_pagination_witness :
    clustersListRun
        (fun tok => match tok with
          | none => .ok ⟨["c1", "c2"], some "T"⟩
          | some _ => .ok ⟨["c3"], none⟩) 2 none = some (["c1", "c2", "c3"], 0)
    ∧ clustersListRun
        (fun tok => match tok with
          | none => .ok ⟨["c1", "c2"], some "T"⟩
          | some _ => .error "denied") 2 none = some (["c1", "c2", "denied"], 1) := by
  constructor
  · have h := (clustersList_pagination
        (fun tok => match tok with
          | none => .ok ⟨["c1", "c2"], some "T"⟩
          | some _ => .ok ⟨["c3"], none⟩)).1
        [⟨["c1", "c2"], some "T"⟩, ⟨["c3"], none⟩]
        (Serves.step rfl (Serves.last rfl))
    simpa using h
  · have h := (clustersList_pagination
        (fun tok => match tok with
          | none => .ok ⟨["c1", "c2"], some "T"⟩
          | some _ => .error "denied")).2.1
        [⟨["c1", "c2"], some "T"⟩] "denied"
        (ServesErr.step rfl (ServesErr.here rfl))
    simpa using h

/-! ### Task-id derivation and follow-path preconditions
(`cmd/task_definitions_run.go` lines 125-137) -/

/-- Go's `strings.Split(s, "/")`: split at every `/`, keeping empty
components; always returns at least one component. -/
def splitSlash : List Char → List (List Char)
  | [] => [[]]
  | c :: cs =>
      match splitSlash cs with
      | [] => [[c]]
      | w :: ws => if c = '/' then [] :: w :: ws else (c :: w) :: ws

theorem splitSlash_ne_nil (l : List Char) : splitSlash l ≠ [] := by
  cases l with
  | nil => simp [splitSlash]
  | cons c cs =>
      simp only [splitSlash]
      rcases splitSlash cs with _ | ⟨w, ws⟩
      · simp
      · by_cases hc : c = '/' <;> simp [hc]

theorem splitSlash_length (l : List Char) :
    (splitSlash l).length = l.count '/' + 1 := by
  induction l with
  | nil => rfl
  | cons c cs ih =>
      simp only [splitSlash]
      rcases hs : splitSlash cs with _ | ⟨w, ws⟩
      · exact absurd hs (splitSlash_ne_nil cs)
      · dsimp only
        rw [hs] at ih
        simp only [List.length_cons] at ih
        have hcount : List.count '/' (c :: cs) =
            List.count '/' cs + (if c = '/' then 1 else 0) := by
          by_cases hc : c = '/'
          · simp [List.count_cons, hc]
          · simp [List.count_cons, hc, Ne.symm hc]
        by_cases hc : c = '/'
        · rw [if_pos hc]
          show (List.length ([] :: w :: ws)) = List.count '/' (c :: cs) + 1
          rw [hcount, if_pos hc]
          simp only [List.length_cons]
          omega
        · rw [if_neg hc]
          show (List.length ((c :: w) :: ws)) = List.count '/' (c :: cs) + 1
          rw [hcount, if_neg hc]
          simp only [List.length_cons]
          omega

/-- `taskID := tSplited[1]` (lines 125-126): the SECOND `/`-separated
segment of the task ARN; `none` models the index-out-of-range panic when
the ARN contains no `/`. -/
def derivedTaskID (arn : String) : Option String :=
  ((splitSlash arn.toList).get? 1).map String.mk

/-- Modelled from the spec: "derived task ID (substring after last `/`)"
— the segment after the LAST slash, i.e. the last component of the split.
Used only to compare the spec's description against the code. -/
def substringAfterLastSlash (arn : String) : String :=
  String.mk ((splitSlash arn.toList).getLastD [])

/-- C5 counterexample: for a current-format task ARN
`arn:…:task/<cluster>/<id>` the code's derived task ID is the cluster
name segment, not the substring after the last `/`. -/
theorem derivedTaskID_counterexample :
    derivedTaskID "arn:aws:ecs:us-east-1:012345678910:task/my-cluster/0f9de17d" =
      some "my-cluster"
    ∧ substringAfterLastSlash
        "arn:aws:ecs:us-east-1:012345678910:task/my-cluster/0f9de17d" = "0f9de17d"
    ∧ ("my-cluster" : String) ≠ "0f9de17d" := by
  refine ⟨?_, ?_, by decide⟩ <;> decide

/-- C5 (amended): the derived task ID is the second `/`-separated segment
of the ARN; it coincides with the spec's "substring after the last `/`"
exactly for ARNs containing a single `/` (the legacy task-ARN format). -/
theorem derivedTaskID_secondSegment (arn : String)
    (h : arn.toList.count '/' = 1) :
    derivedTaskID arn = some (substringAfterLastSlash arn) := by
  have hlen : (splitSlash arn.toList).length = 2 := by
    rw [splitSlash_length, h]
  rcases hs : splitSlash arn.toList with _ | ⟨a, rest⟩
  · exact absurd hs (splitSlash_ne_nil arn.toList)
  · rcases rest with _ | ⟨b, rest2⟩
    · rw [hs] at hlen
      simp at hlen
    · rcases rest2 with _ | ⟨c, rest3⟩
      · unfold derivedTaskID substringAfterLastSlash
        rw [hs]
        rfl
      · rw [hs] at hlen
        simp at hlen

/-- C5 witness: a legacy-format ARN with a single `/`. -/
theorem derivedTaskID_secondSegment_witness :
    derivedTaskID "arn:aws:ecs:us-east-1:012345678910:task/0f9de17d" =
      some (substringAfterLastSlash "arn:aws:ecs:us-east-1:012345678910:task/0f9de17d") :=
  derivedTaskID_secondSegment "arn:aws:ecs:us-east-1:012345678910:task/0f9de17d" (by decide)

/-- `aws.StringValue`: dereference a `*string`, `""` when `nil`. -/
def stringValue (s : Option String) : String := s.getD ""

/-- The `LogConfiguration` of a container definition: `LogDriver` and the
`Options` map (a Go map lookup yields `nil` for a missing key). -/
structure LogConfigurationDef where
  logDriver : Option String
  options : List (String × String)
deriving DecidableEq

/-- A container definition: `Name` and the (possibly `nil`)
`LogConfiguration` pointer. -/
structure ContainerDef where
  name : Option String
  logConfiguration : Option LogConfigurationDef
deriving DecidableEq

/-- What the follow path decides to do once set up. -/
inductive FollowSetup where
  | exitZero
  | follow (logGroup : Option String) (logStreamName : String)
deriving DecidableEq

/-- Lines 125-137 of `taskDefinitionsRunRun`, in source order:
`taskID := strings.Split(arn, "/")[1]` (panics without a `/`), then
`td.ContainerDefinitions[0].LogConfiguration.LogDriver` (panics on an
empty container list or a `nil` log configuration); a non-`awslogs`
driver exits 0; otherwise the log group and the stream name
`<prefix>/<containerName>/<taskID>` are assembled.  `none` models a
panic. -/
def followSetup (arn : String) (cds : List ContainerDef) : Option FollowSetup :=
  match (splitSlash arn.toList).get? 1 with
  | none => none
  | some tid =>
      match cds.get? 0 with
      | none => none
      | some cd =>
          match cd.logConfiguration with
          | none => none
          | some lc =>
              if stringValue lc.logDriver ≠ "awslogs" then some .exitZero
              else
                some (.follow (lc.options.lookup "awslogs-group")
                  (stringValue (lc.options.lookup "awslogs-stream-prefix") ++ "/" ++
                    stringValue cd.name ++ "/" ++ String.mk tid))

/-- C10: the follow path panics — rather than exiting gracefully —
exactly when the task ARN contains no `/`, or there are no container
definitions, or the first container definition has no log configuration
(`cmd/task_definitions_run.go` lines 125-137). -/
theorem followSetup_panic_iff (arn : String) (cds : List ContainerDef) :
    followSetup arn cds = none ↔
      (arn.toList.count '/' = 0 ∨ cds = [] ∨
        ∃ cd, cds.get? 0 = some cd ∧ cd.logConfiguration = none) := by
  have hsplit : (splitSlash arn.toList).get? 1 = none ↔ arn.toList.count '/' = 0 := by
    rw [List.get?_eq_none, splitSlash_length]
    omega
  rcases h1 : (splitSlash arn.toList).get? 1 with _ | tid
  · have hval : followSetup arn cds = none := by
      unfold followSetup
      rw [h1]
    rw [hval]
    constructor
    · intro _
      exact Or.inl (hsplit.mp h1)
    · intro _
      rfl
  · rcases h2 : cds.get? 0 with _ | cd
    · have hnil : cds = [] := by
        cases cds with
        | nil => rfl
        | cons x xs => simp at h2
      have hval : followSetup arn cds = none := by
        unfold followSetup
        rw [h1]
        dsimp only
        rw [h2]
      rw [hval]
      constructor
      · intro _
        exact Or.inr (Or.inl hnil)
      · intro _
        rfl
    · rcases h3 : cd.logConfiguration with _ | lc
      · have hval : followSetup arn cds = none := by
          unfold followSetup
          rw [h1]
          dsimp only
          rw [h2]
          dsimp only
          rw [h3]
        rw [hval]
        constructor
        · intro _
          exact Or.inr (Or.inr ⟨cd, rfl, h3⟩)
        · intro _
          rfl
      · have hnn : followSetup arn cds ≠ none := by
          unfold followSetup
          rw [h1]
          dsimp only
          rw [h2]
          dsimp only
          rw [h3]
          dsimp only
          split <;> simp
        constructor
        · intro hcontra
          exact absurd hcontra hnn
        · rintro (hc | hc | ⟨cd2, hcd2, hnone⟩)
          · rw [hsplit.mpr hc] at h1
            cases h1
          · subst hc
            simp at h2
          · injection hcd2 with hcd2
            subst hcd2
            rw [h3] at hnone
            cases hnone

/-! ### `printEvent` (`cmd/task_definitions_run.go` lines 55-71)

`json.Unmarshal(bytes, &jl)` with `jl : map[string]interface{}` succeeds
exactly when the payload is one complete JSON value that is an object
(surrounding whitespace allowed); any other payload — including valid
JSON that is not an object — yields an error and takes the raw-text
branch.  The external `encoding/json` decoder is modelled by a small
recursive-descent JSON parser. -/

/-- A decoded JSON value; numbers keep their lexeme (their numeric value
is irrelevant to the rendering branch decision). -/
inductive Json where
  | null
  | bool (b : Bool)
  | num (lexeme : String)
  | str (s : String)
  | arr (elems : List Json)
  | obj (members : List (String × Json))

def isJsonWs (c : Char) : Bool := c = ' ' ∨ c = '\t' ∨ c = '\n' ∨ c = '\r'

def skipWs : List Char → List Char
  | [] => []
  | c :: cs => if isJsonWs c then skipWs cs else c :: cs

def isJsonDigit (c : Char) : Bool := '0' ≤ c ∧ c ≤ '9'

/-- Body of a JSON string after the opening quote; an escape accepts the
next character verbatim.  Returns the raw body and the rest. -/
def parseStringBody : Nat → List Char → Option (List Char × List Char)
  | 0, _ => none
  | _, [] => none
  | fuel + 1, c :: cs =>
      if c = '"' then some ([], cs)
      else if c = '\\' then
        match cs with
        | [] => none
        | d :: ds => (parseStringBody fuel ds).map (fun p => (c :: d :: p.1, p.2))
      else (parseStringBody fuel cs).map (fun p => (c :: p.1, p.2))

/-- Exponent suffix of a number lexeme (optional). -/
def parseExponent (lex : List Char) : List Char → Option (Json × List Char)
  | [] => some (.num (String.mk lex), [])
  | c :: cs =>
      if c = 'e' ∨ c = 'E' then
        let sgn : List Char × List Char :=
          match cs with
          | '+' :: ds => (['+'], ds)
          | '-' :: ds => (['-'], ds)
          | ds => ([], ds)
        let digs := sgn.2.span isJsonDigit
        if digs.1.isEmpty then none
        else some (.num (String.mk (lex ++ c :: (sgn.1 ++ digs.1))), digs.2)
      else some (.num (String.mk lex), c :: cs)

/-- A JSON number: optional minus, integer part without leading zeros,
optional fraction, optional exponent. -/
def parseNumber (input : List Char) : Option (Json × List Char) :=
  let sgn : List Char × List Char :=
    match input with
    | '-' :: cs => (['-'], cs)
    | cs => ([], cs)
  let ip := sgn.2.span isJsonDigit
  if ip.1.isEmpty then none
  else if ip.1.length > 1 ∧ ip.1.head? = some '0' then none
  else
    match ip.2 with
    | '.' :: cs =>
        let fp := cs.span isJsonDigit
        if fp.1.isEmpty then none
        else parseExponent (sgn.1 ++ ip.1 ++ '.' :: fp.1) fp.2
    | rest => parseExponent (sgn.1 ++ ip.1) rest

mutual

/-- One JSON value, leading whitespace allowed. -/
def parseValue : Nat → List Char → Option (Json × List Char)
  | 0, _ => none
  | fuel + 1, input =>
      match skipWs input with
      | [] => none
      | c :: cs =>
          if c = '{' then
            match skipWs cs with
            | '}' :: rest => some (.obj [], rest)
            | cs2 => (parseMembers fuel cs2).map (fun p => (.obj p.1, p.2))
          else if c = '[' then
            match skipWs cs with
            | ']' :: rest => some (.arr [], rest)
            | cs2 => (parseElements fuel cs2).map (fun p => (.arr p.1, p.2))
          else if c = '"' then
            (parseStringBody (fuel + 1) cs).map (fun p => (.str (String.mk p.1), p.2))
          else if c = 't' then
            match cs with
            | 'r' :: 'u' :: 'e' :: rest => some (.bool true, rest)
            | _ => none
          else if c = 'f' then
            match cs with
            | 'a' :: 'l' :: 's' :: 'e' :: rest => some (.bool false, rest)
            | _ => none
          else if c = 'n' then
            match cs with
            | 'u' :: 'l' :: 'l' :: rest => some (.null, rest)
            | _ => none
          else parseNumber (c :: cs)

/-- The members of an object after `{` (at least one member). -/
def parseMembers : Nat → List Char → Option (List (String × Json) × List Char)
  | 0, _ => none
  | fuel + 1, input =>
      match skipWs input with
      | '"' :: cs =>
          match parseStringBody (fuel + 1) cs with
          | none => none
          | some (k, r1) =>
              match skipWs r1 with
              | ':' :: r2 =>
                  match parseValue fuel r2 with
                  | none => none
                  | some (v, r3) =>
                      match skipWs r3 with
                      | ',' :: r4 =>
                          (parseMembers fuel r4).map
                            (fun p => ((String.mk k, v) :: p.1, p.2))
                      | '}' :: r4 => some ([(String.mk k, v)], r4)
                      | _ => none
              | _ => none
      | _ => none

/-- The elements of an array after `[` (at least one element). -/
def parseElements : Nat → List Char → Option (List Json × List Char)
  | 0, _ => none
  | fuel + 1, input =>
      match parseValue fuel input with
      | none => none
      | some (v, r1) =>
          match skipWs r1 with
          | ',' :: r2 => (parseElements fuel r2).map (fun p => (v :: p.1, p.2))
          | ']' :: r2 => some ([v], r2)
          | _ => none

end

/-- Decode one complete JSON value: the whole input must be consumed up
to trailing whitespace (as Go's `json.Unmarshal` requires). -/
def decodeJson (s : String) : Option Json :=
  match parseValue (s.length + 1) s.toList with
  | none => none
  | some (v, rest) => if skipWs rest = [] then some v else none

/-- `json.Unmarshal(bytes, &jl)` with `jl : map[string]interface{}`:
succeeds only on a JSON object. -/
def unmarshalMap (s : String) : Option (List (String × Json)) :=
  match decodeJson s with
  | some (.obj kvs) => some kvs
  | _ => none

/-- `printEvent` (lines 55-71): `red`/`white` are the two Sprint
functions, `formatter` is `colorjson`'s `Marshal` (whose error is
discarded), `dateStr` the RFC3339-rendered timestamp and `streamStr` the
stream name.  A failed unmarshal degrades to the raw message; the
function is total — it never fails its caller. -/
def printEvent (formatter : List (String × Json) → String)
    (red white : String → String) (dateStr streamStr msg : String) : String :=
  match unmarshalMap msg with
  | none => "[" ++ red dateStr ++ "] (" ++ white streamStr ++ ") " ++ msg
  | some jl => "[" ++ red dateStr ++ "] (" ++ white streamStr ++ ") " ++ formatter jl

/-- C6 counterexample: `"true"` is a complete, valid JSON value, yet
`printEvent` renders it through the raw-text branch (the formatter —
here a constant sentinel — is not consulted), because unmarshalling into
a map requires an object. -/
theorem printEvent_validJson_counterexample :
    decodeJson "true" = some (Json.bool true)
    ∧ printEvent (fun _ => "FORMATTED") id id "D" "S" "true" = "[D] (S) true"
    ∧ ("[D] (S) true" : String) ≠ "[D] (S) FORMATTED" :=
  ⟨rfl, rfl, by decide⟩

/-- C6 (amended): a payload that is not a valid JSON object renders as
raw text prefixed with the (colorized) timestamp and stream-name tag; a
payload that is a valid JSON object renders through the structured
formatter with the same prefix; `printEvent` is total, so neither path
can fail the caller. -/
theorem printEvent_formatter_fallback (formatter : List (String × Json) → String)
    (red white : String → String) (dateStr streamStr msg : String) :
    ((∀ kvs, decodeJson msg ≠ some (Json.obj kvs)) →
      printEvent formatter red white dateStr streamStr msg =
        "[" ++ red dateStr ++ "] (" ++ white streamStr ++ ") " ++ msg)
    ∧ ∀ kvs, decodeJson msg = some (Json.obj kvs) →
        printEvent formatter red white dateStr streamStr msg =
          "[" ++ red dateStr ++ "] (" ++ white streamStr ++ ") " ++ formatter kvs := by
  constructor
  · intro h
    have hm : unmarshalMap msg = none := by
      unfold unmarshalMap
      rcases hd : decodeJson msg with _ | v
      · rfl
      · cases v with
        | obj kvs => exact absurd hd (h kvs)
        | null => rfl
        | bool b => rfl
        | num l => rfl
        | str s => rfl
        | arr xs => rfl
    unfold printEvent
    rw [hm]
  · intro kvs h
    have hm : unmarshalMap msg = some kvs := by
      unfold unmarshalMap
      rw [h]
    unfold printEvent
    rw [hm]

/-- C6 witness: a non-JSON payload takes the raw branch; a JSON-object
payload goes through the formatter. -/
theorem printEvent_formatter_fallback_witness :
    printEvent (fun _ => "FORMATTED") id id "D" "S" "plain text" = "[D] (S) plain text"
    ∧ printEvent (fun kvs => toString kvs.length) id id "D" "S" "\x7b\"a\": true\x7d" =
        "[D] (S) 1" :=
  ⟨(printEvent_formatter_fallback (fun _ => "FORMATTED") id id "D" "S" "plain text").1
      (by intro kvs h; rw [show decodeJson "plain text" = none from rfl] at h; cases h),
    (printEvent_formatter_fallback (fun kvs => toString kvs.length) id id "D" "S"
        "\x7b\"a\": true\x7d").2 [("a", Json.bool true)] rfl⟩

end Ecsctl
